import Mathlib

/-!
Verification of the core data pipeline of the case-tracking dashboard
(`app.py`): the CSV cleaning performed by `load_data`, the KPI
computation `get_kpi_metrics`, and the inline top-5-plus-"Otros"
aggregation feeding the pie charts.

Modelling conventions (shallow embedding):
* pandas `float64` values are modelled as exact rationals `ℚ`; `NaN`
  (and `NaT`) is modelled by an explicit `na` constructor.
* Timestamps are modelled as integers counting days, so
  `pd.Timedelta(days=30)` is the integer `30`.
* The external library parsers (`pd.read_csv` field parsing,
  `pd.to_numeric`, `pd.to_datetime`) are not code of this repository;
  they enter the model as parameters `p : String → Option ℚ` and
  `d : String → Option ℤ`, where `none` is a parse failure.
* A raw CSV cell is `Option String`: `none` is a field recognised as
  missing by the reader, `some s` is a (possibly whitespace-only)
  string field.
* A Python exception escaping a function is modelled by the function
  returning `none` (for `get_kpi_metrics`) or `Except.error`
  (for `load_data`'s uncaught `read_json` path).
-/

/-- Value of a single cell of a loaded pandas DataFrame: missing
(`NaN`/`NaT`), numeric, datetime (days), or text. -/
inductive CVal where
  | na : CVal
  | num : ℚ → CVal
  | date : ℤ → CVal
  | str : String → CVal
deriving DecidableEq

/-- Raw parsed CSV content, before the normalisation steps of
`load_data`: a header row and data rows of optional string fields. -/
structure RawTable where
  header : List String
  rows : List (List (Option String))
deriving DecidableEq

/-- A cleaned DataFrame: header names and rows of typed cells. -/
structure CTable where
  header : List String
  rows : List (List CVal)
deriving DecidableEq

/-- Model of Python's `str.strip()` on a list of characters: drop
leading and trailing whitespace. -/
def trimChars (cs : List Char) : List Char :=
  ((cs.dropWhile Char.isWhitespace).reverse.dropWhile Char.isWhitespace).reverse

/-- Model of Python's `str.strip()` / pandas `.str.strip()`. -/
def pyStrip (s : String) : String :=
  String.mk (trimChars s.toList)

/-- Embedding of `pd.to_numeric([cell], errors="coerce")` on one cell:
a missing or unparseable entry becomes `NaN`, never a number. -/
def numCoerce (p : String → Option ℚ) : Option String → CVal
  | none => CVal.na
  | some s =>
    match p s with
    | some q => CVal.num q
    | none => CVal.na

/-- Embedding of `pd.to_datetime([cell], errors="coerce")` on one cell:
a missing or unparseable entry becomes `NaT`. -/
def dateCoerce (d : String → Option ℤ) : Option String → CVal
  | none => CVal.na
  | some s =>
    match d s with
    | some t => CVal.date t
    | none => CVal.na

/-- Combined effect, on one cell of an object (text) column, of
`fillna("No especificado")` followed by `.str.strip()`
(lines 70-75 of `app.py`). -/
def objCoerce : Option String → CVal
  | none => CVal.str "No especificado"
  | some s => CVal.str (pyStrip s)

/-- Column `j` of the raw table, as the list of its cells. -/
def rawColAt (raw : RawTable) (j : ℕ) : List (Option String) :=
  raw.rows.map (fun r => r.getD j none)

/-- Read-time dtype inference of `pd.read_csv`: a column is numeric
when every non-missing field parses as a number (an all-missing column
is a float column). Otherwise its dtype is `object`. -/
def numericRead (p : String → Option ℚ) (raw : RawTable) (j : ℕ) : Bool :=
  (rawColAt raw j).all (fun c =>
    match c with
    | none => true
    | some s => (p s).isSome)

/-- Typed value of cell `c` in column `j` after the type coercions of
`load_data`: the column named `Duración` goes through `to_numeric`,
the column named `Fecha Límite` through `to_datetime`, read-time
numeric columns keep their numbers, and all other columns are
`object` columns of strings. -/
def typeCellAt (p : String → Option ℚ) (d : String → Option ℤ)
    (names : List String) (nr : ℕ → Bool) (j : ℕ) (c : Option String) : CVal :=
  if names.getD j "" = "Duración" then numCoerce p c
  else if names.getD j "" = "Fecha Límite" then dateCoerce d c
  else if nr j then numCoerce p c
  else
    match c with
    | none => CVal.na
    | some s => CVal.str s

/-- Column `j` is an `object` (free-text) column of the loaded frame:
not coerced to numeric or datetime and not numeric at read time.
These are the columns hit by `select_dtypes(include=["object"])`. -/
def isObjCol (p : String → Option ℚ) (raw : RawTable) (names : List String) (j : ℕ) : Bool :=
  !(names.getD j "" = "Duración" : Bool) &&
    !(names.getD j "" = "Fecha Límite" : Bool) && !(numericRead p raw j)

/-- Effect of the `fillna("No especificado")` loop on one cell. -/
def fillCellAt (obj : ℕ → Bool) (j : ℕ) (c : CVal) : CVal :=
  if obj j then
    match c with
    | CVal.na => CVal.str "No especificado"
    | x => x
  else c

/-- Effect of the `.str.strip()` loop on one cell. -/
def stripCellAt (obj : ℕ → Bool) (j : ℕ) (c : CVal) : CVal :=
  if obj j then
    match c with
    | CVal.str s => CVal.str (pyStrip s)
    | x => x
  else c

/-- Sort key of a row for `df.sort_values("Fecha Límite")`: the
datetime in column `jF`, with `NaT` (and any non-datetime cell)
ordered last, as pandas places missing keys last. -/
def rowKeyAt (jF : ℕ) (r : List CVal) : WithTop ℤ :=
  match r.getD jF CVal.na with
  | CVal.date t => (t : WithTop ℤ)
  | _ => (⊤ : WithTop ℤ)

/-- Row comparison used to sort by the `Fecha Límite` column. -/
def rowLe (jF : ℕ) (r1 r2 : List CVal) : Prop :=
  rowKeyAt jF r1 ≤ rowKeyAt jF r2

instance (jF : ℕ) : DecidableRel (rowLe jF) :=
  fun r1 r2 => inferInstanceAs (Decidable (rowKeyAt jF r1 ≤ rowKeyAt jF r2))

instance (jF : ℕ) : IsTotal (List CVal) (rowLe jF) :=
  ⟨fun r1 r2 => le_total (rowKeyAt jF r1) (rowKeyAt jF r2)⟩

instance (jF : ℕ) : IsTrans (List CVal) (rowLe jF) :=
  ⟨fun _ _ _ h1 h2 => le_trans h1 h2⟩

/-- Normalisation performed by `load_data` on a successfully parsed
CSV (lines 55-77 of `app.py`): strip the column names, coerce
`Duración` to numeric and `Fecha Límite` to datetime (sorting the
frame by the latter when present), then fill missing text cells with
the sentinel and strip the text cells. -/
def cleanCSV (p : String → Option ℚ) (d : String → Option ℤ) (raw : RawTable) : CTable :=
  let names := raw.header.map pyStrip
  let n := names.length
  let nr := fun j => numericRead p raw j
  let typed := raw.rows.map
    (fun r => (List.range n).map (fun j => typeCellAt p d names nr j (r.getD j none)))
  let jF := List.indexOf "Fecha Límite" names
  let sorted :=
    if "Fecha Límite" ∈ names then List.insertionSort (rowLe jF) typed else typed
  let obj := fun j => isObjCol p raw names j
  let filled := sorted.map
    (fun r => (List.range n).map (fun j => fillCellAt obj j (r.getD j CVal.na)))
  let stripped := filled.map
    (fun r => (List.range n).map (fun j => stripCellAt obj j (r.getD j CVal.na)))
  ⟨names, stripped⟩

/-- Column `j` of a cleaned table, as the list of its cells. -/
def colAt (t : CTable) (j : ℕ) : List CVal :=
  t.rows.map (fun r => r.getD j CVal.na)

/-- Which path of `load_data` produced the returned frame. -/
inductive Source where
  | csv : Source
  | errorEmpty : Source
  | json : Source
  | sample : Source
deriving DecidableEq

/-- Result of one `load_data` pass: the returned frame, the message
shown through `st.error` if any, and the path taken. -/
structure LoadResult where
  df : CTable
  errMsg : Option String
  source : Source
deriving DecidableEq

/-- Environment of one `load_data` pass: the files enumerated in
`data/` and the outcome of parsing them. `parseCSV` returning
`Except.error e` models `pd.read_csv` raising an exception with
message `e`; likewise `parseJSON` for `pd.read_json` (whose raised
exceptions are not caught inside `load_data`). The synthetic sample
frame is environment-provided because it is random. -/
structure LoadEnv where
  csvFiles : List String
  parseCSV : String → Except String RawTable
  jsonFiles : List String
  parseJSON : String → Except String CTable
  sampleDf : CTable

/-- Embedding of `load_data` (lines 43-93 of `app.py`): first CSV
found is parsed and cleaned; a parse exception is reported and an
empty frame returned; with no CSV, the first JSON is parsed with no
normalisation; with no data file at all, the synthetic sample frame
is returned. An `Except.error` result models an uncaught exception. -/
def load_data (p : String → Option ℚ) (d : String → Option ℤ)
    (env : LoadEnv) : Except String LoadResult :=
  match env.csvFiles with
  | f :: _ =>
    match env.parseCSV f with
    | Except.ok raw => Except.ok ⟨cleanCSV p d raw, none, Source.csv⟩
    | Except.error e =>
        Except.ok ⟨⟨[], []⟩, some ("Error al cargar el archivo: " ++ e), Source.errorEmpty⟩
  | [] =>
    match env.jsonFiles with
    | g :: _ =>
      match env.parseJSON g with
      | Except.ok t => Except.ok ⟨t, none, Source.json⟩
      | Except.error e => Except.error e
    | [] => Except.ok ⟨env.sampleDf, none, Source.sample⟩

/-- Display value of a KPI card: an integer or a formatted string,
matching the two kinds of `value` passed to `st.metric`. -/
inductive KpiValue where
  | nat : ℕ → KpiValue
  | str : String → KpiValue
deriving DecidableEq

/-- One KPI record of `get_kpi_metrics`. -/
structure KPI where
  title : String
  value : KpiValue
  delta : String
  help : String
deriving DecidableEq

/-- Column membership test `col in df.columns`. -/
def CTable.hasCol (t : CTable) (c : String) : Bool :=
  t.header.contains c

/-- Column access `df[c]`: the cells of the first column named `c`. -/
def CTable.col (t : CTable) (c : String) : List CVal :=
  colAt t (List.indexOf c t.header)

/-- Valid numeric entries of a numeric column, dropping `NaN` the way
pandas reductions do; `none` models the `TypeError` pandas raises when
the column holds non-numeric data. -/
def numCells : List CVal → Option (List ℚ)
  | [] => some []
  | CVal.num q :: r => (numCells r).map (fun l => q :: l)
  | CVal.na :: r => numCells r
  | _ => none

/-- Entries of a datetime column (`none` entries are `NaT`); the outer
`none` models the `TypeError` on a non-datetime column. -/
def dateCells : List CVal → Option (List (Option ℤ))
  | [] => some []
  | CVal.date t :: r => (dateCells r).map (fun l => some t :: l)
  | CVal.na :: r => (dateCells r).map (fun l => none :: l)
  | _ => none

/-- Non-missing entries of a text column, dropping `NaN` the way
`value_counts` does; the outer `none` models a non-text column. -/
def strCells : List CVal → Option (List String)
  | [] => some []
  | CVal.str s :: r => (strCells r).map (fun l => s :: l)
  | CVal.na :: r => strCells r
  | _ => none

/-- Embedding of `Series.mean()`: `NaN` (here `none`) on an empty or
all-missing column, otherwise the arithmetic mean of the valid values. -/
def pdMean (xs : List ℚ) : Option ℚ :=
  if xs.length = 0 then none else some (xs.sum / (xs.length : ℚ))

/-- Embedding of the square of `Series.std()` (sample variance,
`ddof=1`): `NaN` (here `none`) when fewer than two valid values
exist, otherwise the sum of squared deviations over `n - 1`. -/
def pdVar (xs : List ℚ) : Option ℚ :=
  if xs.length ≤ 1 then none
  else
    match pdMean xs with
    | none => none
    | some m => some ((xs.map (fun x => (x - m) ^ 2)).sum / ((xs.length : ℚ) - 1))

/-- Floor of a rational, computed with floored integer division. -/
def qfloor (q : ℚ) : ℤ :=
  Int.fdiv q.num (q.den : ℤ)

/-- Nearest integer to `q` with ties going to the even integer, the
rounding used by Python's fixed-point float formatting. -/
def roundHalfEven (q : ℚ) : ℤ :=
  let f := qfloor q
  let r := q - (f : ℚ)
  if r < 1 / 2 then f
  else if 1 / 2 < r then f + 1
  else if f % 2 = 0 then f else f + 1

/-- Embedding of Python's `f"{x:.1f}"` on a finite value, with the
value modelled as an exact rational. -/
def fmt1 (q : ℚ) : String :=
  let n := roundHalfEven (10 * q)
  (if n < 0 then "-" else "") ++ toString (n.natAbs / 10) ++ "." ++ toString (n.natAbs % 10)

/-- Embedding of `f"{x:.1f}"` on a pandas reduction result, where
`none` is `NaN` and formats as `"nan"`. -/
def fmtOpt1 : Option ℚ → String
  | none => "nan"
  | some q => fmt1 q

/-- Tenths digit count of `Real.sqrt v` rounded half-to-even: the
exact-arithmetic counterpart of formatting `sqrt v` to one decimal
place. `m` is the integer square root of `⌊400 v⌋`; an odd `m` with
`m ^ 2 = 400 v` is the exact tie `k + 1/2`. -/
def sqrtTenths (v : ℚ) : ℕ :=
  let m := Nat.sqrt (qfloor (400 * v)).toNat
  if m % 2 = 1 ∧ ((m : ℚ) ^ 2 = 400 * v) then
    (if (m / 2) % 2 = 0 then m / 2 else m / 2 + 1)
  else (m + 1) / 2

/-- Embedding of `f"{std:.1f}"` where `std` is the square root of the
sample variance `v` (`none` is `NaN`). -/
def fmtStd1 : Option ℚ → String
  | none => "nan"
  | some v =>
    let n := sqrtTenths v
    toString (n / 10) ++ "." ++ toString (n % 10)

/-- First-occurrence deduplication worker: keeps each value the first
time it appears, skipping values already in `seen`. -/
def dedupFirstAux (seen : List String) : List String → List String
  | [] => []
  | x :: l =>
    if x ∈ seen then dedupFirstAux seen l
    else x :: dedupFirstAux (x :: seen) l

/-- Distinct values of a list in order of first occurrence, the key
order underlying pandas `value_counts` before sorting. -/
def dedupFirst (xs : List String) : List String :=
  dedupFirstAux [] xs

/-- Comparison by descending count used to sort the frequency table. -/
def cntGe (a b : String × ℕ) : Prop :=
  b.2 ≤ a.2

instance : DecidableRel cntGe :=
  fun a b => inferInstanceAs (Decidable (b.2 ≤ a.2))

instance : IsTotal (String × ℕ) cntGe :=
  ⟨fun a b => (le_total b.2 a.2).imp id id⟩

instance : IsTrans (String × ℕ) cntGe :=
  ⟨fun _ _ _ h1 h2 => le_trans h2 h1⟩

/-- Embedding of `Series.value_counts()` on the non-missing values
`xs`: frequency of each distinct value, sorted by count descending,
ties kept in first-occurrence order (the stable order documented by
the spec). -/
def valueCounts (xs : List String) : List (String × ℕ) :=
  List.insertionSort cntGe ((dedupFirst xs).map (fun v => (v, xs.count v)))

/-- Embedding of the pie-chart aggregation of `app.py` (lines 234-248
and 276-290): `top_5 = value_counts.head(5)`, plus an `"Otros"` entry
summing the remainder when more than five distinct values exist. -/
def top5WithOther (xs : List String) : List (String × ℕ) :=
  let vc := valueCounts xs
  let top5 := vc.take 5
  let others :=
    if 5 < vc.length then [("Otros", ((vc.drop 5).map (fun q => q.2)).sum)] else []
  top5 ++ others

/-- Embedding of the truncation applied to the most common action:
`str(v)[:20] + "..." if len(str(v)) > 20 else str(v)`. -/
def truncate20 (s : String) : String :=
  if 20 < s.length then String.mk (s.toList.take 20) ++ "..." else s

/-- Duration KPI block of `get_kpi_metrics` (lines 111-119): present
exactly when a `Duración` column exists; `none` models the fault on a
non-numeric column. -/
def durKpis (df : CTable) : Option (List KPI) :=
  if df.hasCol "Duración" then
    match numCells (df.col "Duración") with
    | none => none
    | some xs =>
      some [⟨"Duración Promedio", KpiValue.str (fmtOpt1 (pdMean xs)),
        "±" ++ fmtStd1 (pdVar xs) ++ " días",
        "Promedio y desviación estándar de la duración de los casos"⟩]
  else some []

/-- Upcoming-deadline KPI block of `get_kpi_metrics` (lines 122-130):
rows whose `Fecha Límite` lies in the closed interval
`[now, now + 30 days]` (`Series.between` is inclusive on both ends). -/
def fechaKpis (now : ℤ) (df : CTable) : Option (List KPI) :=
  if df.hasCol "Fecha Límite" then
    match dateCells (df.col "Fecha Límite") with
    | none => none
    | some ds =>
      some [⟨"Próximos Vencimientos",
        KpiValue.nat (ds.countP (fun o =>
          match o with
          | some t => decide (now ≤ t) && decide (t ≤ now + 30)
          | none => false)),
        "en los próximos 30 días",
        "Casos que vencen en los próximos 30 días"⟩]
  else some []

/-- Most-frequent-action KPI block of `get_kpi_metrics` (lines
133-141): head of `value_counts` on `Actuación`. On an empty
frequency table, `.iloc[0]` raises `IndexError`, modelled by `none`. -/
def actKpis (df : CTable) : Option (List KPI) :=
  if df.hasCol "Actuación" then
    match strCells (df.col "Actuación") with
    | none => none
    | some xs =>
      match valueCounts xs with
      | [] => none
      | (nm, c) :: _ =>
        some [⟨"Actuación más Común", KpiValue.str (truncate20 nm),
          toString c ++ " casos", "Tipo de actuación más frecuente"⟩]
  else some []

/-- Embedding of `get_kpi_metrics` (lines 95-143): the total-count
KPI followed by the three conditional KPI blocks, in source order.
`now` is the wall-clock time of the call; `none` models a raised
exception. -/
def get_kpi_metrics (now : ℤ) (df : CTable) : Option (List KPI) := do
  let a ← durKpis df
  let b ← fechaKpis now df
  let c ← actKpis df
  pure (⟨"Total de Casos", KpiValue.nat df.rows.length, "casos registrados",
    "Número total de casos en el sistema"⟩ :: (a ++ b ++ c))

/-! ### Frequency-table lemmas -/

theorem mem_dedupFirstAux {x : String} :
    ∀ (l seen : List String), x ∈ dedupFirstAux seen l ↔ x ∈ l ∧ x ∉ seen := by
  intro l
  induction l with
  | nil => intro seen; simp [dedupFirstAux]
  | cons y t ih =>
    intro seen
    by_cases hy : y ∈ seen
    · simp only [dedupFirstAux, if_pos hy, ih, List.mem_cons]
      constructor
      · rintro ⟨h1, h2⟩; exact ⟨Or.inr h1, h2⟩
      · rintro ⟨h1, h2⟩
        rcases h1 with h1 | h1
        · exact absurd (h1 ▸ hy) h2
        · exact ⟨h1, h2⟩
    · simp only [dedupFirstAux, if_neg hy, List.mem_cons, ih, List.mem_cons]
      constructor
      · rintro (h | ⟨h1, h2⟩)
        · exact ⟨Or.inl h, h ▸ hy⟩
        · exact ⟨Or.inr h1, fun hc => h2 (Or.inr hc)⟩
      · rintro ⟨h1, h2⟩
        by_cases hx : x = y
        · exact Or.inl hx
        · rcases h1 with h1 | h1
          · exact absurd h1 hx
          · exact Or.inr ⟨h1, fun hc => (by rcases hc with hc | hc; exact hx hc; exact h2 hc)⟩

theorem mem_dedupFirst {x : String} {xs : List String} :
    x ∈ dedupFirst xs ↔ x ∈ xs := by
  unfold dedupFirst
  rw [mem_dedupFirstAux]
  simp

theorem count_filter_split :
    ∀ (t : List String) (x : String) (seen : List String), x ∉ seen →
      t.count x + (t.filter (fun v => decide (v ∉ x :: seen))).length =
        (t.filter (fun v => decide (v ∉ seen))).length := by
  intro t
  induction t with
  | nil => intro x seen _; rfl
  | cons y t2 ih =>
    intro x seen hx
    by_cases hyx : y = x
    · subst hyx
      have h1 : (y :: t2).count y = t2.count y + 1 := by
        simp [List.count_cons]
      have h2 : (y :: t2).filter (fun v => decide (v ∉ y :: seen)) =
          t2.filter (fun v => decide (v ∉ y :: seen)) := by
        simp [List.filter_cons]
      have h3 : (y :: t2).filter (fun v => decide (v ∉ seen)) =
          y :: t2.filter (fun v => decide (v ∉ seen)) := by
        simp [List.filter_cons, hx]
      rw [h1, h2, h3]
      have := ih y seen hx
      simp only [List.length_cons]
      omega
    · have h1 : (y :: t2).count x = t2.count x := by
        simp [List.count_cons, hyx]
      by_cases hys : y ∈ seen
      · have h2 : (y :: t2).filter (fun v => decide (v ∉ x :: seen)) =
            t2.filter (fun v => decide (v ∉ x :: seen)) := by
          simp [List.filter_cons, hys]
        have h3 : (y :: t2).filter (fun v => decide (v ∉ seen)) =
            t2.filter (fun v => decide (v ∉ seen)) := by
          simp [List.filter_cons, hys]
        rw [h1, h2, h3, ih x seen hx]
      · have h2 : (y :: t2).filter (fun v => decide (v ∉ x :: seen)) =
            y :: t2.filter (fun v => decide (v ∉ x :: seen)) := by
          simp [List.filter_cons, hys, hyx]
        have h3 : (y :: t2).filter (fun v => decide (v ∉ seen)) =
            y :: t2.filter (fun v => decide (v ∉ seen)) := by
          simp [List.filter_cons, hys]
        rw [h1, h2, h3]
        simp only [List.length_cons]
        rw [← ih x seen hx]
        omega

theorem sum_counts_dedupFirstAux :
    ∀ (l seen : List String),
      ((dedupFirstAux seen l).map (fun v => l.count v)).sum =
        (l.filter (fun v => decide (v ∉ seen))).length := by
  intro l
  induction l with
  | nil => intro seen; rfl
  | cons x t ih =>
    intro seen
    by_cases hx : x ∈ seen
    · have h1 : (x :: t).filter (fun v => decide (v ∉ seen)) =
          t.filter (fun v => decide (v ∉ seen)) := by
        simp [List.filter_cons, hx]
      have h2 : (dedupFirstAux seen t).map (fun v => (x :: t).count v) =
          (dedupFirstAux seen t).map (fun v => t.count v) := by
        apply List.map_congr_left
        intro v hv
        have hvs : v ∉ seen := (mem_dedupFirstAux t seen).mp hv |>.2
        have hvx : v ≠ x := fun hc => hvs (hc ▸ hx)
        simp [List.count_cons, hvx.symm, Ne.symm hvx]
      rw [dedupFirstAux, if_pos hx, h2, ih seen, h1]
    · have h2 : (dedupFirstAux (x :: seen) t).map (fun v => (x :: t).count v) =
          (dedupFirstAux (x :: seen) t).map (fun v => t.count v) := by
        apply List.map_congr_left
        intro v hv
        have hvs : v ∉ x :: seen := (mem_dedupFirstAux t (x :: seen)).mp hv |>.2
        have hvx : v ≠ x := fun hc => hvs (hc ▸ List.mem_cons_self x seen)
        simp [List.count_cons, Ne.symm hvx]
      have h3 : (x :: t).filter (fun v => decide (v ∉ seen)) =
          x :: t.filter (fun v => decide (v ∉ seen)) := by
        simp [List.filter_cons, hx]
      have h4 : (x :: t).count x = t.count x + 1 := by simp [List.count_cons]
      rw [dedupFirstAux, if_neg hx, List.map_cons, List.sum_cons, h2, ih (x :: seen), h4, h3]
      have h5 := count_filter_split t x seen hx
      simp only [List.length_cons]
      omega

theorem sum_counts_dedupFirst (xs : List String) :
    ((dedupFirst xs).map (fun v => xs.count v)).sum = xs.length := by
  unfold dedupFirst
  rw [sum_counts_dedupFirstAux]
  have : xs.filter (fun v => decide (v ∉ ([] : List String))) = xs := by
    apply List.filter_eq_self.mpr
    intro a _
    simp
  rw [this]

theorem valueCounts_perm (xs : List String) :
    (valueCounts xs).Perm ((dedupFirst xs).map (fun v => (v, xs.count v))) :=
  List.perm_insertionSort cntGe _

theorem valueCounts_length (xs : List String) :
    (valueCounts xs).length = (dedupFirst xs).length := by
  rw [(valueCounts_perm xs).length_eq, List.length_map]

theorem valueCounts_sum (xs : List String) :
    ((valueCounts xs).map (fun q => q.2)).sum = xs.length := by
  have h := ((valueCounts_perm xs).map (fun q : String × ℕ => q.2)).sum_eq
  rw [h, List.map_map]
  have : ((fun q : String × ℕ => q.2) ∘ fun v => (v, xs.count v)) =
      fun v => xs.count v := rfl
  rw [this, sum_counts_dedupFirst]

theorem valueCounts_sorted (xs : List String) :
    (valueCounts xs).Pairwise cntGe :=
  List.sorted_insertionSort cntGe _

theorem valueCounts_mem_fst {xs : List String} {q : String × ℕ}
    (h : q ∈ valueCounts xs) : q.1 ∈ xs ∧ q.2 = xs.count q.1 := by
  have h2 := (valueCounts_perm xs).mem_iff.mp h
  rcases List.mem_map.mp h2 with ⟨v, hv, hq⟩
  constructor
  · rw [← hq]; exact mem_dedupFirst.mp hv
  · rw [← hq]

/-! ### Claims C2 and C3: the top-5-plus-other aggregation -/

/-- C2 counterexample: on a column with six distinct values, the
collapsed entry of the pie aggregation is labelled `"Otros"`, and no
entry of the output carries the label `"Others"`, so the claimed label
is not preserved character for character. -/
theorem c2_otros_label_counterexample :
    ("Otros", 1) ∈ top5WithOther ["a", "b", "c", "d", "e", "f"] ∧
      ∀ q ∈ top5WithOther ["a", "b", "c", "d", "e", "f"], q.1 ≠ "Others" := by
  decide

/-- C2 amended: in the top-5-with-other aggregation, when more than
five distinct values exist the synthetic collapsed entry carries
exactly the label `"Otros"` (the Spanish sentinel used by the code),
appended after the five kept entries. -/
theorem c2_otros_label (xs : List String) (h : 5 < (dedupFirst xs).length) :
    ∃ c : ℕ, top5WithOther xs = (valueCounts xs).take 5 ++ [("Otros", c)] := by
  refine ⟨(((valueCounts xs).drop 5).map (fun q => q.2)).sum, ?_⟩
  unfold top5WithOther
  dsimp only
  rw [if_pos (by rw [valueCounts_length]; exact h)]

/-- C2 witness: the amended claim evaluated on a six-value column. -/
theorem c2_otros_label_witness :
    ∃ c : ℕ, top5WithOther ["a", "b", "c", "d", "e", "f"] =
      (valueCounts ["a", "b", "c", "d", "e", "f"]).take 5 ++ [("Otros", c)] :=
  c2_otros_label ["a", "b", "c", "d", "e", "f"] (by decide)

/-- C3: with at most five distinct values the aggregation is exactly
the frequency table (so no collapsed entry is produced and every label
occurs in the column); with more than five distinct values it keeps
the five highest-frequency entries, appends one collapsed entry
summing all excluded frequencies, and the counts of the output sum to
the total row count of the column. -/
theorem c3_top5_aggregation (xs : List String) :
    ((dedupFirst xs).length ≤ 5 →
      top5WithOther xs = valueCounts xs ∧
        ∀ q ∈ top5WithOther xs, q.1 ∈ xs) ∧
    (5 < (dedupFirst xs).length →
      top5WithOther xs =
        (valueCounts xs).take 5 ++
          [("Otros", (((valueCounts xs).drop 5).map (fun q => q.2)).sum)] ∧
        ((top5WithOther xs).map (fun q => q.2)).sum = xs.length ∧
        ∀ a ∈ (valueCounts xs).take 5, ∀ b ∈ (valueCounts xs).drop 5, b.2 ≤ a.2) := by
  constructor
  · intro h
    have hlen : (valueCounts xs).length ≤ 5 := by rw [valueCounts_length]; exact h
    have heq : top5WithOther xs = valueCounts xs := by
      unfold top5WithOther
      dsimp only
      rw [if_neg (by omega), List.take_of_length_le hlen, List.append_nil]
    refine ⟨heq, ?_⟩
    intro q hq
    rw [heq] at hq
    exact (valueCounts_mem_fst hq).1
  · intro h
    have hlen : 5 < (valueCounts xs).length := by rw [valueCounts_length]; exact h
    have heq : top5WithOther xs =
        (valueCounts xs).take 5 ++
          [("Otros", (((valueCounts xs).drop 5).map (fun q => q.2)).sum)] := by
      unfold top5WithOther
      dsimp only
      rw [if_pos hlen]
    refine ⟨heq, ?_, ?_⟩
    · rw [heq, List.map_append, List.sum_append, List.map_cons, List.map_nil]
      have hsplit := congrArg (fun l : List (String × ℕ) => (l.map (fun q => q.2)).sum)
        (List.take_append_drop 5 (valueCounts xs))
      simp only [List.map_append, List.sum_append] at hsplit
      have := valueCounts_sum xs
      simp only [List.sum_cons, List.sum_nil]
      omega
    · intro a ha b hb
      have hp : ((valueCounts xs).take 5 ++ (valueCounts xs).drop 5).Pairwise cntGe := by
        rw [List.take_append_drop]
        exact valueCounts_sorted xs
      exact (List.pairwise_append.mp hp).2.2 a ha b hb

/-- C3 witness: both branches evaluated, on a two-value column and on
a six-value column. -/
theorem c3_top5_aggregation_witness :
    top5WithOther ["x", "x", "y"] = valueCounts ["x", "x", "y"] ∧
      ((top5WithOther ["a", "b", "c", "d", "e", "f", "a"]).map (fun q => q.2)).sum =
        (["a", "b", "c", "d", "e", "f", "a"] : List String).length :=
  ⟨((c3_top5_aggregation ["x", "x", "y"]).1 (by decide)).1,
    ((c3_top5_aggregation ["a", "b", "c", "d", "e", "f", "a"]).2 (by decide)).2.1⟩

/-! ### Claim C1: empty or all-missing inputs to `get_kpi_metrics` -/

theorem numCells_all_na :
    ∀ (cells : List CVal), (∀ c ∈ cells, c = CVal.na) → numCells cells = some [] := by
  intro cells
  induction cells with
  | nil => intro _; rfl
  | cons c r ih =>
    intro h
    have hc : c = CVal.na := h c (List.mem_cons_self c r)
    subst hc
    exact ih (fun x hx => h x (List.mem_cons_of_mem _ hx))

theorem strCells_all_na :
    ∀ (cells : List CVal), (∀ c ∈ cells, c = CVal.na) → strCells cells = some [] := by
  intro cells
  induction cells with
  | nil => intro _; rfl
  | cons c r ih =>
    intro h
    have hc : c = CVal.na := h c (List.mem_cons_self c r)
    subst hc
    exact ih (fun x hx => h x (List.mem_cons_of_mem _ hx))

/-- C1 counterexample: on a table whose `Duración` column holds one
missing value, `get_kpi_metrics` does not omit the duration KPI — it
emits it with the NaN artifact `"nan"` as value and `"±nan días"` as
delta; and on a table whose `Actuación` column holds one missing
value, `get_kpi_metrics` raises an indexing fault (`.iloc[0]` on an
empty frequency table), modelled as `none`. -/
theorem c1_no_data_counterexample :
    get_kpi_metrics 0 ⟨["Duración"], [[CVal.na]]⟩ =
      some [⟨"Total de Casos", KpiValue.nat 1, "casos registrados",
          "Número total de casos en el sistema"⟩,
        ⟨"Duración Promedio", KpiValue.str "nan", "±nan días",
          "Promedio y desviación estándar de la duración de los casos"⟩] ∧
      get_kpi_metrics 0 ⟨["Actuación"], [[CVal.na]]⟩ = none := by
  constructor
  · rfl
  · rfl

/-- C1 amended: on a table with no columns at all (the empty frame
`load_data` returns on failure) `get_kpi_metrics` returns only the
total-count KPI and raises no fault; but on a table whose `Duración`
column holds only missing values the duration KPI is still emitted,
with the NaN-formatted value `"nan"` and delta `"±nan días"`, and on
a table whose `Actuación` column holds only missing values
`get_kpi_metrics` raises an indexing fault, modelled as `none`. -/
theorem c1_no_data_behaviour (now : ℤ) :
    get_kpi_metrics now ⟨[], []⟩ =
      some [⟨"Total de Casos", KpiValue.nat 0, "casos registrados",
        "Número total de casos en el sistema"⟩] ∧
    (∀ rows : List (List CVal), (∀ r ∈ rows, r.getD 0 CVal.na = CVal.na) →
      get_kpi_metrics now ⟨["Duración"], rows⟩ =
        some [⟨"Total de Casos", KpiValue.nat rows.length, "casos registrados",
            "Número total de casos en el sistema"⟩,
          ⟨"Duración Promedio", KpiValue.str "nan", "±nan días",
            "Promedio y desviación estándar de la duración de los casos"⟩]) ∧
    (∀ rows : List (List CVal), (∀ r ∈ rows, r.getD 0 CVal.na = CVal.na) →
      get_kpi_metrics now ⟨["Actuación"], rows⟩ = none) := by
  refine ⟨rfl, ?_, ?_⟩
  · intro rows h
    have hcol : ∀ c ∈ (CTable.mk ["Duración"] rows).col "Duración", c = CVal.na := by
      intro c hc
      rcases List.mem_map.mp hc with ⟨r, hr, hrc⟩
      rw [← hrc]
      exact h r hr
    have hnum : numCells ((CTable.mk ["Duración"] rows).col "Duración") = some [] :=
      numCells_all_na _ hcol
    unfold get_kpi_metrics durKpis fechaKpis actKpis
    rw [hnum]
    rfl
  · intro rows h
    have hcol : ∀ c ∈ (CTable.mk ["Actuación"] rows).col "Actuación", c = CVal.na := by
      intro c hc
      rcases List.mem_map.mp hc with ⟨r, hr, hrc⟩
      rw [← hrc]
      exact h r hr
    have hstr : strCells ((CTable.mk ["Actuación"] rows).col "Actuación") = some [] :=
      strCells_all_na _ hcol
    unfold get_kpi_metrics durKpis fechaKpis actKpis
    rw [hstr]
    rfl

/-- C1 witness: the amended claim evaluated at a concrete one-row
all-missing column for each branch. -/
theorem c1_no_data_behaviour_witness :
    get_kpi_metrics 7 ⟨["Duración"], [[CVal.na], [CVal.na]]⟩ =
      some [⟨"Total de Casos", KpiValue.nat 2, "casos registrados",
          "Número total de casos en el sistema"⟩,
        ⟨"Duración Promedio", KpiValue.str "nan", "±nan días",
          "Promedio y desviación estándar de la duración de los casos"⟩] ∧
      get_kpi_metrics 7 ⟨["Actuación"], [[CVal.na]]⟩ = none :=
  ⟨(c1_no_data_behaviour 7).2.1 [[CVal.na], [CVal.na]] (by decide),
    (c1_no_data_behaviour 7).2.2 [[CVal.na]] (by decide)⟩

/-! ### Claim C5: CSV parse failure handling in `load_data` -/

/-- C5: when a CSV file is discovered and parsing it raises any
exception, `load_data` reports the failure through the user-facing
surface (`st.error`), returns the empty table, does not propagate the
exception (the result is an `ok`, not an `error`), and does not fall
back to the JSON or synthetic-sample paths on that pass. -/
theorem c5_parse_failure (p : String → Option ℚ) (d : String → Option ℤ)
    (env : LoadEnv) (f : String) (fs : List String) (e : String)
    (hcsv : env.csvFiles = f :: fs) (herr : env.parseCSV f = Except.error e) :
    load_data p d env =
      Except.ok ⟨⟨[], []⟩, some ("Error al cargar el archivo: " ++ e),
        Source.errorEmpty⟩ ∧
    ∀ res, load_data p d env = Except.ok res →
      res.df = ⟨[], []⟩ ∧ res.errMsg.isSome ∧
        res.source ≠ Source.json ∧ res.source ≠ Source.sample := by
  have hload : load_data p d env =
      Except.ok ⟨⟨[], []⟩, some ("Error al cargar el archivo: " ++ e),
        Source.errorEmpty⟩ := by
    unfold load_data
    rw [hcsv]
    dsimp only
    rw [herr]
  refine ⟨hload, ?_⟩
  intro res hres
  rw [hload] at hres
  cases hres
  refine ⟨rfl, rfl, ?_, ?_⟩
  · intro hc
    cases hc
  · intro hc
    cases hc

/-- C5 witness: a concrete environment whose only CSV file fails to
parse with a malformed-file error. -/
theorem c5_parse_failure_witness :
    load_data (fun _ => none) (fun _ => none)
      ⟨["data/casos.csv"], fun _ => Except.error "malformed",
        [], fun _ => Except.error "no json", ⟨[], []⟩⟩ =
      Except.ok ⟨⟨[], []⟩, some ("Error al cargar el archivo: " ++ "malformed"),
        Source.errorEmpty⟩ :=
  (c5_parse_failure (fun _ => none) (fun _ => none) _ "data/casos.csv" [] "malformed"
    rfl rfl).1

/-! ### Claim C9: shape and order of the KPI sequence -/

theorem durKpis_cases {df : CTable} {a : List KPI} (h : durKpis df = some a) :
    (df.hasCol "Duración" = false ∧ a = []) ∨
      (df.hasCol "Duración" = true ∧ ∃ k, a = [k] ∧ k.title = "Duración Promedio") := by
  unfold durKpis at h
  by_cases hc : df.hasCol "Duración"
  · rw [if_pos hc] at h
    right
    refine ⟨hc, ?_⟩
    rcases hn : numCells (df.col "Duración") with _ | xs
    · rw [hn] at h; cases h
    · rw [hn] at h
      cases h
      exact ⟨_, rfl, rfl⟩
  · rw [if_neg hc] at h
    cases h
    exact Or.inl ⟨Bool.of_not_eq_true hc, rfl⟩

theorem fechaKpis_cases {now : ℤ} {df : CTable} {b : List KPI}
    (h : fechaKpis now df = some b) :
    (df.hasCol "Fecha Límite" = false ∧ b = []) ∨
      (df.hasCol "Fecha Límite" = true ∧
        ∃ k, b = [k] ∧ k.title = "Próximos Vencimientos") := by
  unfold fechaKpis at h
  by_cases hc : df.hasCol "Fecha Límite"
  · rw [if_pos hc] at h
    right
    refine ⟨hc, ?_⟩
    rcases hn : dateCells (df.col "Fecha Límite") with _ | ds
    · rw [hn] at h; cases h
    · rw [hn] at h
      cases h
      exact ⟨_, rfl, rfl⟩
  · rw [if_neg hc] at h
    cases h
    exact Or.inl ⟨Bool.of_not_eq_true hc, rfl⟩

theorem actKpis_cases {df : CTable} {c : List KPI} (h : actKpis df = some c) :
    (df.hasCol "Actuación" = false ∧ c = []) ∨
      (df.hasCol "Actuación" = true ∧
        ∃ k, c = [k] ∧ k.title = "Actuación más Común") := by
  unfold actKpis at h
  by_cases hc : df.hasCol "Actuación"
  · rw [if_pos hc] at h
    right
    refine ⟨hc, ?_⟩
    rcases hn : strCells (df.col "Actuación") with _ | xs
    · rw [hn] at h; cases h
    · rw [hn] at h
      dsimp only at h
      rcases hv : valueCounts xs with _ | ⟨⟨nm, cnt⟩, rest⟩
      · rw [hv] at h; cases h
      · rw [hv] at h
        cases h
        exact ⟨_, rfl, rfl⟩
  · rw [if_neg hc] at h
    cases h
    exact Or.inl ⟨Bool.of_not_eq_true hc, rfl⟩

theorem get_kpi_metrics_parts {now : ℤ} {df : CTable} {kpis : List KPI}
    (h : get_kpi_metrics now df = some kpis) :
    ∃ a b c, durKpis df = some a ∧ fechaKpis now df = some b ∧ actKpis df = some c ∧
      kpis = ⟨"Total de Casos", KpiValue.nat df.rows.length, "casos registrados",
        "Número total de casos en el sistema"⟩ :: (a ++ b ++ c) := by
  unfold get_kpi_metrics at h
  rcases ha : durKpis df with _ | a
  · rw [ha] at h; cases h
  · rw [ha] at h
    rcases hb : fechaKpis now df with _ | b
    · rw [hb] at h; cases h
    · rw [hb] at h
      rcases hc : actKpis df with _ | c
      · rw [hc] at h; cases h
      · rw [hc] at h
        cases h
        exact ⟨a, b, c, rfl, rfl, rfl, rfl⟩

/-- C9: whenever `get_kpi_metrics` returns a KPI sequence, that
sequence begins with the total-count KPI carrying the row count of the
table, and the titles of the sequence are exactly the fixed display
order: total, then duration iff `Duración` is present, then
upcoming-deadline iff `Fecha Límite` is present, then
most-frequent-action iff `Actuación` is present; in particular a table
lacking `Duración` yields no duration record. -/
theorem c9_kpi_order (now : ℤ) (df : CTable) (kpis : List KPI)
    (h : get_kpi_metrics now df = some kpis) :
    kpis.head? = some ⟨"Total de Casos", KpiValue.nat df.rows.length,
        "casos registrados", "Número total de casos en el sistema"⟩ ∧
    kpis.map (fun k => k.title) =
      "Total de Casos" ::
        ((if df.hasCol "Duración" then ["Duración Promedio"] else []) ++
          (if df.hasCol "Fecha Límite" then ["Próximos Vencimientos"] else []) ++
          (if df.hasCol "Actuación" then ["Actuación más Común"] else [])) := by
  rcases get_kpi_metrics_parts h with ⟨a, b, c, ha, hb, hc, hk⟩
  subst hk
  refine ⟨rfl, ?_⟩
  have hta : a.map (fun k => k.title) =
      (if df.hasCol "Duración" then ["Duración Promedio"] else []) := by
    rcases durKpis_cases ha with ⟨hcol, hae⟩ | ⟨hcol, k, hae, htitle⟩
    · rw [hcol, hae]; rfl
    · rw [hcol, hae]
      simp [htitle]
  have htb : b.map (fun k => k.title) =
      (if df.hasCol "Fecha Límite" then ["Próximos Vencimientos"] else []) := by
    rcases fechaKpis_cases hb with ⟨hcol, hbe⟩ | ⟨hcol, k, hbe, htitle⟩
    · rw [hcol, hbe]; rfl
    · rw [hcol, hbe]
      simp [htitle]
  have htc : c.map (fun k => k.title) =
      (if df.hasCol "Actuación" then ["Actuación más Común"] else []) := by
    rcases actKpis_cases hc with ⟨hcol, hce⟩ | ⟨hcol, k, hce, htitle⟩
    · rw [hcol, hce]; rfl
    · rw [hcol, hce]
      simp [htitle]
  rw [List.map_cons, List.map_append, List.map_append, hta, htb, htc]

/-- C9 witness: a table holding all three recognised columns, and one
lacking `Duración`. -/
theorem c9_kpi_order_witness :
    (∃ kpis, get_kpi_metrics 0 ⟨["Duración", "Fecha Límite", "Actuación"],
        [[CVal.num 10, CVal.date 6, CVal.str "A"]]⟩ = some kpis ∧
      kpis.map (fun k => k.title) =
        ["Total de Casos", "Duración Promedio", "Próximos Vencimientos",
          "Actuación más Común"]) ∧
    (∃ kpis, get_kpi_metrics 0 ⟨["Actuación"], [[CVal.str "A"]]⟩ = some kpis ∧
      kpis.map (fun k => k.title) = ["Total de Casos", "Actuación más Común"]) := by
  constructor
  · refine ⟨_, rfl, ?_⟩
    have h := c9_kpi_order 0 ⟨["Duración", "Fecha Límite", "Actuación"],
      [[CVal.num 10, CVal.date 6, CVal.str "A"]]⟩ _ rfl
    rw [h.2]
    rfl
  · refine ⟨_, rfl, ?_⟩
    have h := c9_kpi_order 0 ⟨["Actuación"], [[CVal.str "A"]]⟩ _ rfl
    rw [h.2]
    rfl

/-! ### Claim C7: the upcoming-deadline KPI -/

/-- C7: whenever `get_kpi_metrics` returns a KPI sequence, the
upcoming-deadline KPI is present exactly when the table has a
`Fecha Límite` column, and its value is the number of rows whose
deadline lies in the closed interval `[now, now + 30]` (both endpoints
included), measured at the wall-clock time `now` of the call. -/
theorem c7_upcoming_deadlines (now : ℤ) (df : CTable) (kpis : List KPI)
    (h : get_kpi_metrics now df = some kpis) :
    (df.hasCol "Fecha Límite" = false →
      ∀ k ∈ kpis, k.title ≠ "Próximos Vencimientos") ∧
    (df.hasCol "Fecha Límite" = true →
      ∃ ds, dateCells (df.col "Fecha Límite") = some ds ∧
        ⟨"Próximos Vencimientos",
          KpiValue.nat (ds.countP (fun o =>
            match o with
            | some t => decide (now ≤ t) && decide (t ≤ now + 30)
            | none => false)),
          "en los próximos 30 días",
          "Casos que vencen en los próximos 30 días"⟩ ∈ kpis) := by
  rcases get_kpi_metrics_parts h with ⟨a, b, c, ha, hb, hc, hk⟩
  subst hk
  constructor
  · intro hcol k hk htitle
    rcases List.mem_cons.mp hk with hk0 | hk1
    · rw [hk0] at htitle; simp at htitle
    rcases List.mem_append.mp hk1 with hk2 | hk3
    · rcases List.mem_append.mp hk2 with hk4 | hk5
      · rcases durKpis_cases ha with ⟨_, hae⟩ | ⟨_, kd, hae, htd⟩
        · rw [hae] at hk4; cases hk4
        · rw [hae] at hk4
          rcases List.mem_singleton.mp hk4 with rfl
          rw [htd] at htitle; exact absurd htitle (by decide)
      · rcases fechaKpis_cases hb with ⟨_, hbe⟩ | ⟨hcol2, _, _, _⟩
        · rw [hbe] at hk5; cases hk5
        · rw [hcol] at hcol2; cases hcol2
    · rcases actKpis_cases hc with ⟨_, hce⟩ | ⟨_, kc, hce, htc⟩
      · rw [hce] at hk3; cases hk3
      · rw [hce] at hk3
        rcases List.mem_singleton.mp hk3 with rfl
        rw [htc] at htitle; exact absurd htitle (by decide)
  · intro hcol
    unfold fechaKpis at hb
    rw [if_pos hcol] at hb
    rcases hn : dateCells (df.col "Fecha Límite") with _ | ds
    · rw [hn] at hb; cases hb
    · rw [hn] at hb
      cases hb
      refine ⟨ds, rfl, ?_⟩
      exact List.mem_cons_of_mem _ (List.mem_append.mpr (Or.inl
        (List.mem_append.mpr (Or.inr (List.mem_singleton.mpr rfl)))))

/-- C7 witness: a table whose `Fecha Límite` column holds both
endpoints of the window, one date outside it, and a missing date; the
KPI counts exactly the two endpoint rows. -/
theorem c7_upcoming_deadlines_witness :
    ∃ kpis, get_kpi_metrics 100 ⟨["Fecha Límite"],
        [[CVal.date 100], [CVal.date 130], [CVal.date 131], [CVal.na]]⟩ = some kpis ∧
      ⟨"Próximos Vencimientos", KpiValue.nat 2, "en los próximos 30 días",
        "Casos que vencen en los próximos 30 días"⟩ ∈ kpis := by
  refine ⟨_, rfl, ?_⟩
  have h := c7_upcoming_deadlines 100 ⟨["Fecha Límite"],
    [[CVal.date 100], [CVal.date 130], [CVal.date 131], [CVal.na]]⟩ _ rfl
  rcases h.2 rfl with ⟨ds, hds, hmem⟩
  have hds2 : ds = [some 100, some 130, some 131, none] := by
    have : dateCells ((CTable.mk ["Fecha Límite"]
        [[CVal.date 100], [CVal.date 130], [CVal.date 131], [CVal.na]]).col "Fecha Límite") =
        some [some 100, some 130, some 131, none] := rfl
    rw [this] at hds
    cases hds
    rfl
  rw [hds2] at hmem
  exact hmem

/-! ### Claim C8: the most-frequent-action KPI -/

theorem head_insertionSort_cntGe :
    ∀ (L : List (String × ℕ)) (p : String × ℕ),
      (List.insertionSort cntGe L).head? = some p →
        ∃ A B, L = A ++ p :: B ∧ (∀ q ∈ A, q.2 < p.2) ∧ (∀ q ∈ B, q.2 ≤ p.2) := by
  intro L
  induction L with
  | nil => intro p h; cases h
  | cons x t ih =>
    intro p h
    rw [List.insertionSort] at h
    rcases hst : List.insertionSort cntGe t with _ | ⟨m, s⟩
    · rw [hst, List.orderedInsert_nil] at h
      have hpx : p = x := (Option.some.inj h).symm
      have ht : t = [] := by
        have hperm := List.perm_insertionSort cntGe t
        rw [hst] at hperm
        exact (hperm.symm).eq_nil
      subst hpx
      refine ⟨[], t, rfl, ?_, ?_⟩
      · intro q hq; cases hq
      · intro q hq; rw [ht] at hq; cases hq
    · rw [hst] at h
      by_cases hxm : cntGe x m
      · rw [List.orderedInsert_of_le cntGe _ hxm] at h
        have hpx : p = x := (Option.some.inj h).symm
        subst hpx
        refine ⟨[], t, rfl, ?_, ?_⟩
        · intro q hq; cases hq
        · intro q hq
          have hq2 : q ∈ m :: s := by
            rw [← hst]
            exact (List.mem_insertionSort cntGe).mpr hq
          have hsorted : (m :: s).Pairwise cntGe := by
            rw [← hst]
            exact List.sorted_insertionSort cntGe t
          rcases List.mem_cons.mp hq2 with rfl | hq3
          · exact hxm
          · exact le_trans ((List.pairwise_cons.mp hsorted).1 q hq3) hxm
      · have hins : List.orderedInsert cntGe x (m :: s) =
            m :: List.orderedInsert cntGe x s := by
          rw [List.orderedInsert, if_neg hxm]
        rw [hins] at h
        have hpm : p = m := (Option.some.inj h).symm
        subst hpm
        rcases ih p (by rw [hst]; rfl) with ⟨A2, B2, htA, hA, hB⟩
        refine ⟨x :: A2, B2, by rw [htA, List.cons_append], ?_, hB⟩
        intro q hq
        rcases List.mem_cons.mp hq with rfl | hq2
        · have hxp : ¬(p.2 ≤ q.2) := hxm
          omega
        · exact hA q hq2

theorem dedupFirstAux_order :
    ∀ (l seen A B : List String) (u v : String),
      dedupFirstAux seen l = A ++ u :: B → v ∈ B →
        List.indexOf u l < List.indexOf v l := by
  intro l
  induction l with
  | nil =>
    intro seen A B u v h _
    rcases A with _ | ⟨a, A2⟩ <;> cases h
  | cons x t ih =>
    intro seen A B u v h hv
    by_cases hx : x ∈ seen
    · rw [dedupFirstAux, if_pos hx] at h
      have hu : u ∈ dedupFirstAux seen t := by
        rw [h]; exact List.mem_append.mpr (Or.inr (List.mem_cons_self u B))
      have hvm : v ∈ dedupFirstAux seen t := by
        rw [h]; exact List.mem_append.mpr (Or.inr (List.mem_cons_of_mem u hv))
      have hus : u ∉ seen := ((mem_dedupFirstAux t seen).mp hu).2
      have hvs : v ∉ seen := ((mem_dedupFirstAux t seen).mp hvm).2
      have hux : x ≠ u := fun hc => hus (hc ▸ hx)
      have hvx : x ≠ v := fun hc => hvs (hc ▸ hx)
      rw [List.indexOf_cons_ne t hux, List.indexOf_cons_ne t hvx]
      exact Nat.succ_lt_succ (ih seen A B u v h hv)
    · rw [dedupFirstAux, if_neg hx] at h
      rcases A with _ | ⟨a, A2⟩
      · rw [List.nil_append] at h
        have hxu : x = u := (List.cons_eq_cons.mp h).1
        have hB : dedupFirstAux (x :: seen) t = B := (List.cons_eq_cons.mp h).2
        have hvm : v ∈ dedupFirstAux (x :: seen) t := by rw [hB]; exact hv
        have hvs : v ∉ x :: seen := ((mem_dedupFirstAux t (x :: seen)).mp hvm).2
        have hvx : x ≠ v := fun hc => hvs (hc ▸ List.mem_cons_self x seen)
        rw [← hxu, List.indexOf_cons_self, List.indexOf_cons_ne t hvx]
        exact Nat.succ_pos _
      · rw [List.cons_append] at h
        have hxa : x = a := (List.cons_eq_cons.mp h).1
        have h2 : dedupFirstAux (x :: seen) t = A2 ++ u :: B := (List.cons_eq_cons.mp h).2
        have hu : u ∈ dedupFirstAux (x :: seen) t := by
          rw [h2]; exact List.mem_append.mpr (Or.inr (List.mem_cons_self u B))
        have hvm : v ∈ dedupFirstAux (x :: seen) t := by
          rw [h2]; exact List.mem_append.mpr (Or.inr (List.mem_cons_of_mem u hv))
        have hus : u ∉ x :: seen := ((mem_dedupFirstAux t (x :: seen)).mp hu).2
        have hvs : v ∉ x :: seen := ((mem_dedupFirstAux t (x :: seen)).mp hvm).2
        have hux : x ≠ u := fun hc => hus (hc ▸ List.mem_cons_self x seen)
        have hvx : x ≠ v := fun hc => hvs (hc ▸ List.mem_cons_self x seen)
        rw [List.indexOf_cons_ne t hux, List.indexOf_cons_ne t hvx]
        exact Nat.succ_lt_succ (ih (x :: seen) A2 B u v h2 hv)

/-- Specification-side characterisation of the categorical mode with
the first-occurrence tie-break: `m` occurs in the column, has maximal
frequency, and among the values of maximal frequency it is the one
whose first occurrence comes earliest. -/
def IsFirstMode (xs : List String) (m : String) : Prop :=
  m ∈ xs ∧ (∀ y ∈ xs, xs.count y ≤ xs.count m) ∧
    (∀ y ∈ xs, xs.count y = xs.count m → List.indexOf m xs ≤ List.indexOf y xs)

theorem valueCounts_head_isFirstMode {xs : List String} {nm : String} {c : ℕ}
    (h : (valueCounts xs).head? = some (nm, c)) :
    IsFirstMode xs nm ∧ c = xs.count nm := by
  rcases head_insertionSort_cntGe _ _ h with ⟨A, B, hAB, hA, hB⟩
  rw [List.map_eq_append_iff] at hAB
  rcases hAB with ⟨A2, rest, hL, hA2, hrest⟩
  rw [List.map_eq_cons_iff] at hrest
  rcases hrest with ⟨w, B2, hre, hw, hB2⟩
  have hded : dedupFirst xs = A2 ++ w :: B2 := by rw [hL, hre]
  injection hw with hw1 hw2
  subst hw1
  subst hw2
  have hmem : w ∈ xs := by
    apply mem_dedupFirst.mp
    rw [hded]
    exact List.mem_append.mpr (Or.inr (List.mem_cons_self w B2))
  refine ⟨⟨hmem, ?_, ?_⟩, rfl⟩
  · intro y hy
    have hyd : y ∈ dedupFirst xs := mem_dedupFirst.mpr hy
    rw [hded] at hyd
    rcases List.mem_append.mp hyd with hy1 | hy2
    · have hymem : (y, xs.count y) ∈ A := by
        rw [← hA2]; exact List.mem_map_of_mem _ hy1
      have := hA _ hymem
      simp only at this
      omega
    · rcases List.mem_cons.mp hy2 with rfl | hy3
      · exact le_refl _
      · have hymem : (y, xs.count y) ∈ B := by
          rw [← hB2]; exact List.mem_map_of_mem _ hy3
        have := hB _ hymem
        simp only at this
        omega
  · intro y hy hcy
    by_cases hynm : y = w
    · rw [hynm]
    · have hyd : y ∈ dedupFirst xs := mem_dedupFirst.mpr hy
      rw [hded] at hyd
      rcases List.mem_append.mp hyd with hy1 | hy2
      · have hymem : (y, xs.count y) ∈ A := by
          rw [← hA2]; exact List.mem_map_of_mem _ hy1
        have := hA _ hymem
        simp only at this
        omega
      · rcases List.mem_cons.mp hy2 with rfl | hy3
        · exact absurd rfl hynm
        · exact le_of_lt (dedupFirstAux_order xs [] A2 B2 w y hded hy3)

/-- C8: whenever `get_kpi_metrics` succeeds on a table whose
`Actuación` column holds the non-missing text values `xs`, the KPI
sequence contains the most-frequent-action KPI whose value is the
categorical mode of `xs` (highest frequency, ties resolved by first
occurrence in the source column) truncated to its first 20 characters
with an ellipsis suffix when longer than 20 characters, and whose
delta carries the mode's frequency; and on the column
`["A", "A", "B", "C", "A"]` the emitted KPI is `"A"` with `"3 casos"`. -/
theorem c8_most_frequent_action :
    (∀ (now : ℤ) (df : CTable) (kpis : List KPI) (xs : List String),
      get_kpi_metrics now df = some kpis →
      df.hasCol "Actuación" = true →
      strCells (df.col "Actuación") = some xs →
      ∃ m, IsFirstMode xs m ∧
        (⟨"Actuación más Común",
          KpiValue.str (if 20 < m.length then String.mk (m.toList.take 20) ++ "..." else m),
          toString (xs.count m) ++ " casos",
          "Tipo de actuación más frecuente"⟩ : KPI) ∈ kpis) ∧
    get_kpi_metrics 0 ⟨["Actuación"],
        [[CVal.str "A"], [CVal.str "A"], [CVal.str "B"], [CVal.str "C"], [CVal.str "A"]]⟩ =
      some [⟨"Total de Casos", KpiValue.nat 5, "casos registrados",
          "Número total de casos en el sistema"⟩,
        ⟨"Actuación más Común", KpiValue.str "A", "3 casos",
          "Tipo de actuación más frecuente"⟩] := by
  constructor
  · intro now df kpis xs h hcol hxs
    rcases get_kpi_metrics_parts h with ⟨a, b, c, ha, hb, hc, hk⟩
    subst hk
    unfold actKpis at hc
    rw [if_pos hcol, hxs] at hc
    dsimp only at hc
    rcases hv : valueCounts xs with _ | ⟨⟨nm, cnt⟩, rest⟩
    · rw [hv] at hc; cases hc
    · rw [hv] at hc
      cases hc
      have hhead : (valueCounts xs).head? = some (nm, cnt) := by rw [hv]; rfl
      rcases valueCounts_head_isFirstMode hhead with ⟨hmode, hcnt⟩
      refine ⟨nm, hmode, ?_⟩
      have htr : truncate20 nm =
          (if 20 < nm.length then String.mk (nm.toList.take 20) ++ "..." else nm) := rfl
      rw [← htr, ← hcnt]
      exact List.mem_cons_of_mem _ (List.mem_append.mpr (Or.inr
        (List.mem_singleton.mpr rfl)))
  · decide

/-- C8 witness: the general statement instantiated on the scenario
column `["A", "A", "B", "C", "A"]`. -/
theorem c8_most_frequent_action_witness :
    ∃ m, IsFirstMode ["A", "A", "B", "C", "A"] m ∧
      (⟨"Actuación más Común",
        KpiValue.str (if 20 < m.length then String.mk (m.toList.take 20) ++ "..." else m),
        toString ((["A", "A", "B", "C", "A"] : List String).count m) ++ " casos",
        "Tipo de actuación más frecuente"⟩ : KPI) ∈
        [⟨"Total de Casos", KpiValue.nat 5, "casos registrados",
            "Número total de casos en el sistema"⟩,
          ⟨"Actuación más Común", KpiValue.str "A", "3 casos",
            "Tipo de actuación más frecuente"⟩] :=
  c8_most_frequent_action.1 0 ⟨["Actuación"],
    [[CVal.str "A"], [CVal.str "A"], [CVal.str "B"], [CVal.str "C"], [CVal.str "A"]]⟩
    _ ["A", "A", "B", "C", "A"] c8_most_frequent_action.2 rfl rfl

/-! ### Claim C6: the mean/std duration KPI -/

theorem qfloor_intCast (n : ℤ) : qfloor (n : ℚ) = n := by
  unfold qfloor
  rw [Rat.num_intCast, Rat.den_intCast]
  simp [Int.fdiv_one]

theorem roundHalfEven_intCast (n : ℤ) : roundHalfEven (n : ℚ) = n := by
  unfold roundHalfEven
  dsimp only
  rw [qfloor_intCast, sub_self]
  norm_num

theorem pdMean_ten_twenty : pdMean [10, 20] = some 15 := by
  unfold pdMean
  norm_num [List.sum_cons]

theorem pdVar_ten_twenty : pdVar [10, 20] = some 50 := by
  unfold pdVar
  rw [pdMean_ten_twenty]
  norm_num [List.sum_cons]

theorem fmt1_fifteen : fmt1 15 = "15.0" := by
  unfold fmt1
  dsimp only
  have h : (10 * 15 : ℚ) = ((150 : ℤ) : ℚ) := by norm_num
  rw [h, roundHalfEven_intCast]
  decide

theorem sqrtTenths_fifty : sqrtTenths 50 = 71 := by
  unfold sqrtTenths
  dsimp only
  have h : (400 * 50 : ℚ) = ((20000 : ℤ) : ℚ) := by norm_num
  rw [h, qfloor_intCast]
  have hsq : Nat.sqrt ((20000 : ℤ).toNat) = 141 := by
    have h0 : ((20000 : ℤ)).toNat = 20000 := rfl
    rw [h0]
    have h1 : 141 ≤ Nat.sqrt 20000 := Nat.le_sqrt.mpr (by norm_num)
    have h2 : Nat.sqrt 20000 < 142 := Nat.sqrt_lt.mpr (by norm_num)
    omega
  rw [hsq, ← h]
  have hne : ¬((141 : ℕ) % 2 = 1 ∧ (((141 : ℕ) : ℚ) ^ 2 = 400 * 50)) := by
    rintro ⟨_, hsq2⟩
    norm_num at hsq2
  rw [if_neg hne]

theorem fmtStd1_fifty : fmtStd1 (some 50) = "7.1" := by
  unfold fmtStd1
  dsimp only
  rw [sqrtTenths_fifty]
  decide

/-- C6: whenever `get_kpi_metrics` succeeds on a table whose
`Duración` column holds the valid numeric values `xs` (missing entries
dropped), the KPI sequence contains the duration KPI whose value is
the mean of `xs` formatted to one decimal place and whose delta
carries the sample standard deviation of `xs` formatted to one
decimal place; and a table loaded from the CSV rows
`["10", "20", "bad"]` under a `Duración` header — where `"bad"` fails
numeric parsing — yields mean `"15.0"` and a standard deviation
computed over the 2 valid values only (`sqrt 50`, formatted `"7.1"`),
the missing entry being excluded from both. -/
theorem c6_duration_kpi :
    (∀ (now : ℤ) (df : CTable) (kpis : List KPI) (xs : List ℚ),
      get_kpi_metrics now df = some kpis →
      df.hasCol "Duración" = true →
      numCells (df.col "Duración") = some xs →
      (⟨"Duración Promedio", KpiValue.str (fmtOpt1 (pdMean xs)),
        "±" ++ fmtStd1 (pdVar xs) ++ " días",
        "Promedio y desviación estándar de la duración de los casos"⟩ : KPI) ∈ kpis) ∧
    (∀ (p : String → Option ℚ) (d : String → Option ℤ) (now : ℤ),
      p "10" = some 10 → p "20" = some 20 → p "bad" = none →
      numCells ((cleanCSV p d ⟨["Duración"],
        [[some "10"], [some "20"], [some "bad"]]⟩).col "Duración") = some [10, 20] ∧
      get_kpi_metrics now (cleanCSV p d ⟨["Duración"],
          [[some "10"], [some "20"], [some "bad"]]⟩) =
        some [⟨"Total de Casos", KpiValue.nat 3, "casos registrados",
            "Número total de casos en el sistema"⟩,
          ⟨"Duración Promedio", KpiValue.str "15.0", "±7.1 días",
            "Promedio y desviación estándar de la duración de los casos"⟩]) := by
  constructor
  · intro now df kpis xs h hcol hxs
    rcases get_kpi_metrics_parts h with ⟨a, b, c, ha, hb, hc, hk⟩
    subst hk
    unfold durKpis at ha
    rw [if_pos hcol, hxs] at ha
    dsimp only at ha
    cases ha
    exact List.mem_cons_of_mem _ (List.mem_append.mpr (Or.inl
      (List.mem_append.mpr (Or.inl (List.mem_singleton.mpr rfl)))))
  · intro p d now hp10 hp20 hpbad
    have hclean : cleanCSV p d ⟨["Duración"], [[some "10"], [some "20"], [some "bad"]]⟩ =
        ⟨["Duración"], [[numCoerce p (some "10")], [numCoerce p (some "20")],
          [numCoerce p (some "bad")]]⟩ := rfl
    have h10 : numCoerce p (some "10") = CVal.num 10 := by
      unfold numCoerce; dsimp only; rw [hp10]
    have h20 : numCoerce p (some "20") = CVal.num 20 := by
      unfold numCoerce; dsimp only; rw [hp20]
    have hbad : numCoerce p (some "bad") = CVal.na := by
      unfold numCoerce; dsimp only; rw [hpbad]
    have hcells : cleanCSV p d ⟨["Duración"], [[some "10"], [some "20"], [some "bad"]]⟩ =
        ⟨["Duración"], [[CVal.num 10], [CVal.num 20], [CVal.na]]⟩ := by
      rw [hclean, h10, h20, hbad]
    rw [hcells]
    constructor
    · rfl
    · have hsym : get_kpi_metrics now
          (⟨["Duración"], [[CVal.num 10], [CVal.num 20], [CVal.na]]⟩ : CTable) =
          some [⟨"Total de Casos", KpiValue.nat 3, "casos registrados",
              "Número total de casos en el sistema"⟩,
            ⟨"Duración Promedio", KpiValue.str (fmtOpt1 (pdMean [10, 20])),
              "±" ++ fmtStd1 (pdVar [10, 20]) ++ " días",
              "Promedio y desviación estándar de la duración de los casos"⟩] := rfl
      rw [hsym, pdMean_ten_twenty, pdVar_ten_twenty, fmtStd1_fifty]
      have hv : fmtOpt1 (some 15) = "15.0" := fmt1_fifteen
      rw [hv]
      rfl

/-- C6 witness: the scenario instantiated with a concrete parser that
accepts `"10"` and `"20"` and rejects `"bad"`. -/
theorem c6_duration_kpi_witness :
    get_kpi_metrics 0 (cleanCSV
        (fun s => if s = "10" then some 10 else if s = "20" then some 20 else none)
        (fun _ => none)
        ⟨["Duración"], [[some "10"], [some "20"], [some "bad"]]⟩) =
      some [⟨"Total de Casos", KpiValue.nat 3, "casos registrados",
          "Número total de casos en el sistema"⟩,
        ⟨"Duración Promedio", KpiValue.str "15.0", "±7.1 días",
          "Promedio y desviación estándar de la duración de los casos"⟩] :=
  (c6_duration_kpi.2
    (fun s => if s = "10" then some 10 else if s = "20" then some 20 else none)
    (fun _ => none) 0 rfl rfl rfl).2

/-! ### Claims C4 and C10: the CSV cleaning invariants -/

/-- Stripped column names of the raw table, as `load_data` produces
them. -/
def cleanNames (raw : RawTable) : List String :=
  raw.header.map pyStrip

/-- Object-column test of the loaded frame, as a function of the
column index. -/
def objColsOf (p : String → Option ℚ) (raw : RawTable) : ℕ → Bool :=
  fun j => isObjCol p raw (cleanNames raw) j

/-- Combined per-cell effect of all cleaning stages of `load_data` on
column `j`: type coercion, then sentinel fill, then strip. -/
def outCellAt (p : String → Option ℚ) (d : String → Option ℤ)
    (raw : RawTable) (j : ℕ) (c : Option String) : CVal :=
  stripCellAt (objColsOf p raw) j
    (fillCellAt (objColsOf p raw) j
      (typeCellAt p d (cleanNames raw) (fun i => numericRead p raw i) j c))

/-- Rows of the raw table after the type-coercion stage. -/
def typedRows (p : String → Option ℚ) (d : String → Option ℤ)
    (raw : RawTable) : List (List CVal) :=
  raw.rows.map
    (fun r => (List.range (cleanNames raw).length).map
      (fun j => typeCellAt p d (cleanNames raw) (fun i => numericRead p raw i) j
        (r.getD j none)))

/-- Rows after the optional `sort_values("Fecha Límite")` stage. -/
def sortedRows (p : String → Option ℚ) (d : String → Option ℤ)
    (raw : RawTable) : List (List CVal) :=
  if "Fecha Límite" ∈ cleanNames raw then
    List.insertionSort (rowLe (List.indexOf "Fecha Límite" (cleanNames raw)))
      (typedRows p d raw)
  else typedRows p d raw

theorem rangeMap_getD {α : Type} (n : ℕ) (f : ℕ → α) (j : ℕ) (dflt : α) (hj : j < n) :
    ((List.range n).map f).getD j dflt = f j := by
  rw [List.getD_eq_getElem?_getD, List.getElem?_map, List.getElem?_range hj]
  rfl

theorem getD_indexOf (a : String) (l : List String) (dflt : String) (h : a ∈ l) :
    l.getD (List.indexOf a l) dflt = a := by
  rw [List.getD_eq_getElem?_getD, List.getElem?_eq_getElem (List.indexOf_lt_length.mpr h)]
  simp [List.getElem_indexOf]

theorem colAt_cleanCSV (p : String → Option ℚ) (d : String → Option ℤ)
    (raw : RawTable) (j : ℕ) (hj : j < (cleanNames raw).length) :
    colAt (cleanCSV p d raw) j =
      (sortedRows p d raw).map
        (fun r => stripCellAt (objColsOf p raw) j
          (fillCellAt (objColsOf p raw) j (r.getD j CVal.na))) := by
  have hrows : (cleanCSV p d raw).rows =
      ((sortedRows p d raw).map
        (fun r => (List.range (cleanNames raw).length).map
          (fun j2 => fillCellAt (objColsOf p raw) j2 (r.getD j2 CVal.na)))).map
        (fun r => (List.range (cleanNames raw).length).map
          (fun j2 => stripCellAt (objColsOf p raw) j2 (r.getD j2 CVal.na))) := rfl
  unfold colAt
  rw [hrows, List.map_map, List.map_map]
  apply List.map_congr_left
  intro r _
  simp only [Function.comp]
  simp only [rangeMap_getD _ _ _ _ hj]

theorem typedRows_colmap (p : String → Option ℚ) (d : String → Option ℤ)
    (raw : RawTable) (j : ℕ) (hj : j < (cleanNames raw).length) :
    (typedRows p d raw).map
      (fun r => stripCellAt (objColsOf p raw) j
        (fillCellAt (objColsOf p raw) j (r.getD j CVal.na))) =
      (rawColAt raw j).map (outCellAt p d raw j) := by
  unfold typedRows rawColAt outCellAt
  rw [List.map_map, List.map_map]
  apply List.map_congr_left
  intro r _
  simp only [Function.comp]
  simp only [rangeMap_getD _ _ _ _ hj]

theorem sortedRows_perm (p : String → Option ℚ) (d : String → Option ℤ)
    (raw : RawTable) : (sortedRows p d raw).Perm (typedRows p d raw) := by
  unfold sortedRows
  by_cases hm : "Fecha Límite" ∈ cleanNames raw
  · rw [if_pos hm]
    exact List.perm_insertionSort _ _
  · rw [if_neg hm]

theorem colAt_cleanCSV_perm (p : String → Option ℚ) (d : String → Option ℤ)
    (raw : RawTable) (j : ℕ) (hj : j < (cleanNames raw).length) :
    (colAt (cleanCSV p d raw) j).Perm ((rawColAt raw j).map (outCellAt p d raw j)) := by
  rw [colAt_cleanCSV p d raw j hj]
  have h := (sortedRows_perm p d raw).map
    (fun r => stripCellAt (objColsOf p raw) j
      (fillCellAt (objColsOf p raw) j (r.getD j CVal.na)))
  rw [typedRows_colmap p d raw j hj] at h
  exact h

theorem colAt_cleanCSV_eq (p : String → Option ℚ) (d : String → Option ℤ)
    (raw : RawTable) (j : ℕ) (hnof : "Fecha Límite" ∉ cleanNames raw)
    (hj : j < (cleanNames raw).length) :
    colAt (cleanCSV p d raw) j = (rawColAt raw j).map (outCellAt p d raw j) := by
  rw [colAt_cleanCSV p d raw j hj]
  have hs : sortedRows p d raw = typedRows p d raw := by
    unfold sortedRows
    rw [if_neg hnof]
  rw [hs, typedRows_colmap p d raw j hj]

theorem outCellAt_duracion (p : String → Option ℚ) (d : String → Option ℤ)
    (raw : RawTable) (j : ℕ)
    (hname : (cleanNames raw).getD j "" = "Duración") (c : Option String) :
    outCellAt p d raw j c = numCoerce p c := by
  have hobj : objColsOf p raw j = false := by
    unfold objColsOf isObjCol
    rw [hname]
    simp
  unfold outCellAt typeCellAt
  rw [hname, if_pos rfl]
  unfold stripCellAt fillCellAt
  rw [hobj]
  simp

theorem outCellAt_fecha (p : String → Option ℚ) (d : String → Option ℤ)
    (raw : RawTable) (j : ℕ)
    (hname : (cleanNames raw).getD j "" = "Fecha Límite") (c : Option String) :
    outCellAt p d raw j c = dateCoerce d c := by
  have hobj : objColsOf p raw j = false := by
    unfold objColsOf isObjCol
    rw [hname]
    simp
  unfold outCellAt typeCellAt
  rw [hname, if_neg (by decide), if_pos rfl]
  unfold stripCellAt fillCellAt
  rw [hobj]
  simp

theorem outCellAt_obj (p : String → Option ℚ) (d : String → Option ℤ)
    (raw : RawTable) (j : ℕ)
    (hobj : objColsOf p raw j = true) (c : Option String) :
    outCellAt p d raw j c = objCoerce c := by
  have hparts := hobj
  unfold objColsOf isObjCol at hparts
  rw [Bool.and_eq_true, Bool.and_eq_true] at hparts
  rcases hparts with ⟨⟨h1, h2⟩, h3⟩
  rw [Bool.not_eq_true', decide_eq_false_iff_not] at h1
  rw [Bool.not_eq_true', decide_eq_false_iff_not] at h2
  rw [Bool.not_eq_true'] at h3
  unfold outCellAt typeCellAt
  rw [if_neg h1, if_neg h2]
  simp only [h3, Bool.false_eq_true, if_false]
  cases c with
  | none =>
    unfold fillCellAt stripCellAt
    rw [hobj]
    have hs : pyStrip "No especificado" = "No especificado" := by decide
    simp [hs, objCoerce]
  | some s =>
    unfold fillCellAt stripCellAt
    rw [hobj]
    simp [objCoerce]

theorem cleanCSV_rows_sorted (p : String → Option ℚ) (d : String → Option ℤ)
    (raw : RawTable) (hmem : "Fecha Límite" ∈ cleanNames raw) :
    List.Sorted (fun a b => a ≤ b)
      (((cleanCSV p d raw).rows).map
        (rowKeyAt (List.indexOf "Fecha Límite" (cleanNames raw)))) := by
  have hjF : List.indexOf "Fecha Límite" (cleanNames raw) < (cleanNames raw).length :=
    List.indexOf_lt_length.mpr hmem
  have hname : (cleanNames raw).getD (List.indexOf "Fecha Límite" (cleanNames raw)) "" =
      "Fecha Límite" := getD_indexOf _ _ _ hmem
  have hobj : objColsOf p raw (List.indexOf "Fecha Límite" (cleanNames raw)) = false := by
    unfold objColsOf isObjCol
    rw [hname]
    simp
  have hrows : (cleanCSV p d raw).rows =
      ((sortedRows p d raw).map
        (fun r => (List.range (cleanNames raw).length).map
          (fun j2 => fillCellAt (objColsOf p raw) j2 (r.getD j2 CVal.na)))).map
        (fun r => (List.range (cleanNames raw).length).map
          (fun j2 => stripCellAt (objColsOf p raw) j2 (r.getD j2 CVal.na))) := rfl
  have hmapeq : ((cleanCSV p d raw).rows).map
      (rowKeyAt (List.indexOf "Fecha Límite" (cleanNames raw))) =
      (sortedRows p d raw).map
        (rowKeyAt (List.indexOf "Fecha Límite" (cleanNames raw))) := by
    rw [hrows, List.map_map, List.map_map]
    apply List.map_congr_left
    intro r _
    simp only [Function.comp]
    unfold rowKeyAt
    simp only [rangeMap_getD _ _ _ _ hjF]
    unfold stripCellAt fillCellAt
    rw [hobj]
    simp
  rw [hmapeq]
  have hsorted : List.Pairwise (rowLe (List.indexOf "Fecha Límite" (cleanNames raw)))
      (sortedRows p d raw) := by
    unfold sortedRows
    rw [if_pos hmem]
    exact List.sorted_insertionSort _ _
  exact List.pairwise_map.mpr hsorted

/-- C4: every table returned by `load_data` from a successfully
parsed CSV has its column names stripped of surrounding whitespace;
its `Duración` column is the raw column mapped through the numeric
coercion (missing or unparseable entries become the missing marker,
never a number); its `Fecha Límite` column is the raw column mapped
through the date coercion (failures become missing); every object
(text) column is the raw column with missing cells replaced by the
sentinel `"No especificado"` and non-missing cells stripped of
surrounding whitespace; and when `Fecha Límite` is present the rows
are sorted ascending by that column (missing dates last). -/
theorem c4_load_invariants (p : String → Option ℚ) (d : String → Option ℤ)
    (env : LoadEnv) (f : String) (fs : List String) (raw : RawTable)
    (hcsv : env.csvFiles = f :: fs) (hok : env.parseCSV f = Except.ok raw) :
    ∃ res, load_data p d env = Except.ok res ∧ res.source = Source.csv ∧
      res.errMsg = none ∧
      res.df.header = raw.header.map pyStrip ∧
      (∀ j, j < res.df.header.length →
        (res.df.header.getD j "" = "Duración" →
          (colAt res.df j).Perm ((rawColAt raw j).map (numCoerce p))) ∧
        (res.df.header.getD j "" = "Fecha Límite" →
          (colAt res.df j).Perm ((rawColAt raw j).map (dateCoerce d))) ∧
        (isObjCol p raw res.df.header j = true →
          (colAt res.df j).Perm ((rawColAt raw j).map objCoerce))) ∧
      numCoerce p none = CVal.na ∧
      (∀ s, p s = none → numCoerce p (some s) = CVal.na) ∧
      dateCoerce d none = CVal.na ∧
      (∀ s, d s = none → dateCoerce d (some s) = CVal.na) ∧
      objCoerce none = CVal.str "No especificado" ∧
      (∀ s, objCoerce (some s) = CVal.str (pyStrip s)) ∧
      ("Fecha Límite" ∈ res.df.header →
        List.Sorted (fun a b => a ≤ b)
          (res.df.rows.map (rowKeyAt (List.indexOf "Fecha Límite" res.df.header)))) := by
  have hload : load_data p d env = Except.ok ⟨cleanCSV p d raw, none, Source.csv⟩ := by
    unfold load_data
    rw [hcsv]
    dsimp only
    rw [hok]
  refine ⟨⟨cleanCSV p d raw, none, Source.csv⟩, hload, rfl, rfl, rfl, ?_, rfl, ?_, rfl, ?_,
    rfl, fun s => rfl, ?_⟩
  · intro j hj
    have hj2 : j < (cleanNames raw).length := hj
    refine ⟨?_, ?_, ?_⟩
    · intro hname
      have heq : (rawColAt raw j).map (outCellAt p d raw j) =
          (rawColAt raw j).map (numCoerce p) :=
        List.map_congr_left (fun c _ => outCellAt_duracion p d raw j hname c)
      exact heq ▸ colAt_cleanCSV_perm p d raw j hj2
    · intro hname
      have heq : (rawColAt raw j).map (outCellAt p d raw j) =
          (rawColAt raw j).map (dateCoerce d) :=
        List.map_congr_left (fun c _ => outCellAt_fecha p d raw j hname c)
      exact heq ▸ colAt_cleanCSV_perm p d raw j hj2
    · intro hobj
      have heq : (rawColAt raw j).map (outCellAt p d raw j) =
          (rawColAt raw j).map objCoerce :=
        List.map_congr_left (fun c _ => outCellAt_obj p d raw j hobj c)
      exact heq ▸ colAt_cleanCSV_perm p d raw j hj2
  · intro s hs
    unfold numCoerce
    dsimp only
    rw [hs]
  · intro s hs
    unfold dateCoerce
    dsimp only
    rw [hs]
  · intro hmem
    exact cleanCSV_rows_sorted p d raw hmem

/-- C4 witness: a one-column CSV whose header carries surrounding
whitespace and whose cells are a padded string and a missing value. -/
theorem c4_load_invariants_witness :
    ∃ res, load_data (fun _ => none) (fun _ => none)
        ⟨["data/casos.csv"], fun _ => Except.ok ⟨[" Nombre "], [[some " x "], [none]]⟩,
          [], fun _ => Except.error "no json", ⟨[], []⟩⟩ = Except.ok res ∧
      res.source = Source.csv ∧ res.df.header = [" Nombre "].map pyStrip := by
  rcases c4_load_invariants (fun _ => none) (fun _ => none)
      ⟨["data/casos.csv"], fun _ => Except.ok ⟨[" Nombre "], [[some " x "], [none]]⟩,
        [], fun _ => Except.error "no json", ⟨[], []⟩⟩
      "data/casos.csv" [] ⟨[" Nombre "], [[some " x "], [none]]⟩ rfl rfl with
    ⟨res, h1, h2, _, h4, _⟩
  exact ⟨res, h1, h2, h4⟩

/-- C10: in a table cleaned from a CSV without a `Fecha Límite`
column, a text-column cell that holds a whitespace-only string in the
source becomes the empty string — not the sentinel — because the
sentinel is substituted for missing cells before whitespace is
stripped; the sentinel is produced exactly at the genuinely absent
cells of the column. -/
theorem c10_whitespace_cell (p : String → Option ℚ) (d : String → Option ℤ)
    (raw : RawTable) (j i : ℕ) (s : String)
    (hnof : "Fecha Límite" ∉ raw.header.map pyStrip)
    (hobj : isObjCol p raw (raw.header.map pyStrip) j = true)
    (hj : j < (raw.header.map pyStrip).length)
    (hcell : (rawColAt raw j)[i]? = some (some s))
    (hws : pyStrip s = "") :
    (colAt (cleanCSV p d raw) j)[i]? = some (CVal.str "") ∧
      CVal.str "" ≠ CVal.str "No especificado" ∧
      ∀ i2 : ℕ, (rawColAt raw j)[i2]? = some none →
        (colAt (cleanCSV p d raw) j)[i2]? = some (CVal.str "No especificado") := by
  have hcol := colAt_cleanCSV_eq p d raw j hnof hj
  have hcolobj : colAt (cleanCSV p d raw) j = (rawColAt raw j).map objCoerce := by
    rw [hcol]
    exact List.map_congr_left (fun c _ => outCellAt_obj p d raw j hobj c)
  refine ⟨?_, by decide, ?_⟩
  · rw [hcolobj, List.getElem?_map, hcell]
    unfold objCoerce
    dsimp only [Option.map]
    rw [hws]
  · intro i2 h2
    rw [hcolobj, List.getElem?_map, h2]
    rfl

/-- C10 witness: a CSV with one text column whose first cell is two
spaces and whose second cell is missing. -/
theorem c10_whitespace_cell_witness :
    (colAt (cleanCSV (fun _ => none) (fun _ => none)
      ⟨["Nombre"], [[some "  "], [none]]⟩) 0)[0]? = some (CVal.str "") ∧
    (colAt (cleanCSV (fun _ => none) (fun _ => none)
      ⟨["Nombre"], [[some "  "], [none]]⟩) 0)[1]? = some (CVal.str "No especificado") := by
  rcases c10_whitespace_cell (fun _ => none) (fun _ => none)
      ⟨["Nombre"], [[some "  "], [none]]⟩ 0 0 "  " (by decide) (by decide) (by decide)
      rfl (by decide) with ⟨h1, _, h3⟩
  exact ⟨h1, h3 1 rfl⟩
